import Mathlib

/-!
Verification development for the iot-modem-manager repository.

The repository has two Python source files, `modem_handler.py` and
`basic_at_commands.py`, each defining a `ModemHandler` class.  The pure
logic of the methods relevant to the claims is embedded shallowly below:

* shared string helpers model the Python string operations used by both
  files (`strip`, `split`, `join`, `in` containment, `lower`, regexes);
* namespace `MH` embeds `modem_handler.py` (line classifier,
  `send_command`/`wait_for_response` retry loop, `handle_new_sms`,
  `parse_sms_content`, `decode_hex_string`);
* namespace `BA` embeds `basic_at_commands.py` (line classifier,
  `parse_sms_content`, `handle_incoming_sms`, `process_sms_command`,
  `clean_processed_messages`, `send_sms`);
* namespace `Exec` embeds the `threading.Lock`-guarded command execution
  (`with self.lock:` around `send_command`) as an explicit interleaving
  semantics over thread programs, used for the single-flight claim.

Stateful methods are embedded as pure functions from an explicit starting
state plus an oracle for the modem's responses (the strings returned by
`send_command` calls) to the resulting state together with the list of AT
commands issued.  `time.time()` is modelled by natural-number seconds
passed in explicitly.  Python whitespace/digit classes are modelled at
ASCII level, which covers every character the protocol produces.
-/

namespace Modem

/-- ASCII model of Python's whitespace class (used by `str.strip` and the
regex class `\s`). -/
def pyIsSpace (c : Char) : Bool :=
  c = ' ' || c = '\t' || c = '\n' || c = '\x0d' || c = '\x0b' || c = '\x0c'

/-- ASCII model of the regex digit class `\d`. -/
def pyIsDigit (c : Char) : Bool :=
  '0' ≤ c && c ≤ '9'

/-- Python `str.strip()`: drop whitespace from both ends. -/
def pyStrip (s : String) : String :=
  String.mk (((s.data.dropWhile pyIsSpace).reverse.dropWhile pyIsSpace).reverse)

/-- Python `str.strip('"')`: drop double quotes from both ends
(used by `parse_sms_content` in `modem_handler.py`). -/
def stripQuotes (s : String) : String :=
  String.mk (((s.data.dropWhile (· = '"')).reverse.dropWhile (· = '"')).reverse)

/-- Leading-pattern test on character lists (first argument is the
pattern), the building block for substring containment. -/
def chPre : List Char → List Char → Bool
  | [], _ => true
  | _ :: _, [] => false
  | a :: n, b :: h => a = b && chPre n h

/-- Substring search on character lists (first argument is the needle). -/
def chSub (n : List Char) : List Char → Bool
  | [] => n.isEmpty
  | b :: h => chPre n (b :: h) || chSub n h

/-- Python's `needle in hay` containment test on strings. -/
def containsTok (hay needle : String) : Bool :=
  chSub needle.data hay.data

/-- Python's `str.startswith` (kernel-reducible version). -/
def strStarts (s pre : String) : Bool :=
  chPre pre.data s.data

/-- Split a character list at every occurrence of `sep`, keeping empty
pieces, like Python's `str.split` with a one-character separator. -/
def splitOnChar (sep : Char) : List Char → List (List Char)
  | [] => [[]]
  | c :: cs =>
    if c = sep then [] :: splitOnChar sep cs
    else
      match splitOnChar sep cs with
      | [] => [[c]]
      | g :: gs => (c :: g) :: gs

/-- Python `content.split('\n')`. -/
def pySplit (sep : Char) (s : String) : List String :=
  (splitOnChar sep s.data).map String.mk

/-- Python `sep.join(pieces)`. -/
def joinWith (sep : String) : List String → String
  | [] => ""
  | [x] => x
  | x :: xs => x ++ sep ++ joinWith sep xs

/-- ASCII model of Python `str.lower` on one character. -/
def lowerChar (c : Char) : Char :=
  if 'A' ≤ c ∧ c ≤ 'Z' then Char.ofNat (c.toNat + 32) else c

/-- ASCII model of Python `str.lower`. -/
def pyLower (s : String) : String :=
  String.mk (s.data.map lowerChar)

/-! ### The `+CMTI` notification regex

Both files extract the storage index of a new SMS with
`re.search(r'\+CMTI:\s*"[^"]+",\s*(\d+)', notification)`.  Every
quantifier in that pattern is effectively deterministic (`\s*` is
followed by a character that is not whitespace, `[^"]+` by `"`, `\d+`
ends the pattern), so the search is modelled by trying an exact matcher
at every start position, leftmost first. -/

/-- Try the `+CMTI` pattern at the head of the list; on success return
the digits of the capture group `(\d+)`. -/
def cmtiAt : List Char → Option (List Char)
  | '+' :: 'C' :: 'M' :: 'T' :: 'I' :: ':' :: rest =>
    match (rest.dropWhile pyIsSpace) with
    | '"' :: r2 =>
      match r2.span (fun c => c != '"') with
      | (q, r3) =>
        if q.isEmpty then none
        else
          match r3 with
          | '"' :: ',' :: r4 =>
            match (r4.dropWhile pyIsSpace).span pyIsDigit with
            | (ds, _) => if ds.isEmpty then none else some ds
          | _ => none
    | _ => none
  | _ => none

/-- Model of `re.search` for the `+CMTI` pattern: first matching position wins. -/
def searchCmti : List Char → Option (List Char)
  | [] => none
  | c :: cs =>
    match cmtiAt (c :: cs) with
    | some ds => some ds
    | none => searchCmti cs

/-! ### Hex / UTF-16BE codec (`decode_hex_string` in `modem_handler.py`) -/

/-- The character filter from `decode_hex_string`:
`c in '0123456789ABCDEFabcdef'`. -/
def isHexChar (c : Char) : Bool :=
  chSub [c] "0123456789ABCDEFabcdef".data

/-- Value of one hex digit, as `binascii.unhexlify` reads it. -/
def hexDigitVal (c : Char) : Option Nat :=
  if '0' ≤ c ∧ c ≤ '9' then some (c.toNat - 48)
  else if 'a' ≤ c ∧ c ≤ 'f' then some (c.toNat - 87)
  else if 'A' ≤ c ∧ c ≤ 'F' then some (c.toNat - 55)
  else none

/-- Model of `binascii.unhexlify`: pair up hex digits into byte values; fails on
an odd number of digits or a non-hex digit. -/
def pyUnhexlify : List Char → Option (List Nat)
  | [] => some []
  | [_] => none
  | a :: b :: rest =>
    match hexDigitVal a, hexDigitVal b, pyUnhexlify rest with
    | some x, some y, some bs => some ((16 * x + y) :: bs)
    | _, _, _ => none

/-- Pair up bytes into big-endian 16-bit code units; fails on an odd
number of bytes (the `truncated data` error of `bytes.decode`). -/
def toUnits : List Nat → Option (List Nat)
  | [] => some []
  | [_] => none
  | a :: b :: rest => (toUnits rest).map ((256 * a + b) :: ·)

/-- Combine UTF-16 code units into scalar values: a high surrogate must
be followed by a low surrogate, a lone surrogate fails (the behaviour of
`bytes.decode('utf-16-be')`). -/
def unitsToChars : List Nat → Option (List Char)
  | [] => some []
  | u :: r =>
    if u < 0xD800 ∨ 0xE000 ≤ u then
      (unitsToChars r).map (Char.ofNat u :: ·)
    else if u < 0xDC00 then
      match r with
      | [] => none
      | v :: r2 =>
        if 0xDC00 ≤ v ∧ v < 0xE000 then
          (unitsToChars r2).map
            (Char.ofNat (0x10000 + (u - 0xD800) * 1024 + (v - 0xDC00)) :: ·)
        else none
    else none

/-- Model of the call `bytes.decode` with the utf-16-be codec. -/
def utf16beDecode (bs : List Nat) : Option (List Char) :=
  match toUnits bs with
  | none => none
  | some us => unitsToChars us

/-- Embeds `ModemHandler.decode_hex_string` (modem_handler.py lines 522-532;
the block repeated at lines 533-542 is unreachable): filter the input
down to hex digits, unhexlify, decode as UTF-16BE; if either step fails
the `except` branch returns the (already filtered) local `hex_string`. -/
def decode_hex_string (s : String) : String :=
  let filtered := s.data.filter isHexChar
  match pyUnhexlify filtered with
  | none => String.mk filtered
  | some bytes =>
    match utf16beDecode bytes with
    | none => String.mk filtered
    | some chars => String.mk chars

/-! Reference encoders (the inverse direction of the codec, used to state
the round-trip property; these model Python's `s.encode('utf-16-be')`
and `binascii.hexlify`). -/

/-- UTF-16BE encoding of one scalar value: one unit below `0x10000`,
otherwise a surrogate pair; each unit is two big-endian bytes. -/
def utf16beEncodeChar (c : Char) : List Nat :=
  let n := c.toNat
  if n < 0x10000 then [n / 256, n % 256]
  else
    let v := n - 0x10000
    let hi := 0xD800 + v / 1024
    let lo := 0xDC00 + v % 1024
    [hi / 256, hi % 256, lo / 256, lo % 256]

/-- UTF-16BE encoding of a character list. -/
def utf16beEncode : List Char → List Nat
  | [] => []
  | c :: cs => utf16beEncodeChar c ++ utf16beEncode cs

/-- The 16-bit code units of a character list (an intermediate notion
for the round-trip proof). -/
def utf16Units : List Char → List Nat
  | [] => []
  | c :: cs =>
    (if c.toNat < 0x10000 then [c.toNat]
     else [0xD800 + (c.toNat - 0x10000) / 1024, 0xDC00 + (c.toNat - 0x10000) % 1024])
      ++ utf16Units cs

/-- One byte as two lowercase hex digits (`binascii.hexlify`). -/
def hexDigitLower (n : Nat) : Char :=
  if n < 10 then Char.ofNat (48 + n) else Char.ofNat (87 + n)

/-- Hex digits of one byte, as `binascii.hexlify` produces them. -/
def byteToHex (b : Nat) : List Char :=
  [hexDigitLower (b / 16), hexDigitLower (b % 16)]

/-- Hex digits of a byte list, as `binascii.hexlify` produces them. -/
def bytesToHex : List Nat → List Char
  | [] => []
  | b :: bs => byteToHex b ++ bytesToHex bs

/-- Destination of a classified line: the response queue feeding
`wait_for_response`, or the event queue feeding `listen_for_events`. -/
inductive Route where
  | response
  | event
deriving DecidableEq

/-- Python truthiness of `self.current_command` (a string attribute that
is `None` while idle): `None` and the empty string are falsy. -/
def currentTruthy : Option String → Bool
  | none => false
  | some c => c != ""

/-- The `line == self.current_command` comparison (false while idle). -/
def echoMatch : Option String → String → Bool
  | none, _ => false
  | some c, line => line == c

namespace MH

/-!  Embedding of `modem_handler.py`. -/

/-- The classifier inside `ModemHandler.read_serial`
(modem_handler.py lines 163-166), applied to each complete,
stripped, non-empty line:
`if self.current_command and (line == self.current_command or
line in ['OK', 'ERROR'] or line.startswith('+')):` routes to the
response queue, `else` to the event queue. -/
def route (cur : Option String) (line : String) : Modem.Route :=
  if Modem.currentTruthy cur &&
      (Modem.echoMatch cur line || line == "OK" || line == "ERROR" ||
        Modem.strStarts line "+")
  then Modem.Route.response else Modem.Route.event

/-- The terminal-token test of `ModemHandler.wait_for_response`
(modem_handler.py line 145): `line in ['OK', 'ERROR']`. -/
def respTerminal (l : String) : Bool :=
  l == "OK" || l == "ERROR"

/-- Accumulating loop of `wait_for_response` (modem_handler.py lines
138-149).  The argument list holds the response-queue lines that arrive
within the timeout window, in order; the loop appends each line and
returns early on a terminal token.  At the end it returns the joined
lines if any arrived, otherwise `None`. -/
def waitAux (acc : List String) : List String → Option String
  | [] => if acc.isEmpty then none else some (Modem.joinWith "\n" acc.reverse)
  | l :: ls =>
    if respTerminal l then some (Modem.joinWith "\n" (l :: acc).reverse)
    else waitAux (l :: acc) ls

/-- Embeds `ModemHandler.wait_for_response` applied to the lines arriving in
one attempt window. -/
def wait_for_response (arrivals : List String) : Option String :=
  waitAux [] arrivals

/-- The three return sites of `ModemHandler.send_command`
(modem_handler.py lines 106-136): a truthy response, the
`"Error: No response from modem"` value after the last attempt, and the
unreachable `"Error: Failed to get response after multiple attempts"`
fall-through after the loop. -/
inductive CmdResult where
  | ok (response : String)
  | noResponse
  | exhausted
deriving DecidableEq

/-- Attempt loop of `send_command` (modem_handler.py lines 113-136).
The schedule has one entry per remaining attempt: the response-queue
lines arriving during that attempt's wait window.  `writes` accumulates
the command texts written so far (most recent first).  Each iteration
writes the command, waits, returns a truthy response, and otherwise
retries unless the attempt was the last (`attempt < max_attempts - 1`),
in which case it returns the no-response error. -/
def sendGo (c : String) : List (List String) → List String → List String × CmdResult
  | [], writes => (writes.reverse, CmdResult.exhausted)
  | att :: rest, writes =>
    match wait_for_response att with
    | some r => ((c :: writes).reverse, CmdResult.ok r)
    | none =>
      if rest.isEmpty then ((c :: writes).reverse, CmdResult.noResponse)
      else sendGo c rest (c :: writes)

/-- Embeds `ModemHandler.send_command` under an already-open connection, as a
function of the per-attempt arrival schedule (whose length is
`max_attempts`); returns the list of wire writes and the result. -/
def send_command (c : String) (schedule : List (List String)) : List String × CmdResult :=
  sendGo c schedule []

/-- Oracle for one `handle_new_sms` run: the strings that the inner
`send_command` calls return and the optional extra event-queue line. -/
structure NewSmsEnv where
  cmgrResp : String
  additionalEvent : Option String
  deleteResp : String
deriving DecidableEq

/-- Result of one `handle_new_sms` run: the updated
`processed_messages` set of indices, the AT commands issued, the
updated `last_cmti_timestamp`, and the parsed text that gets logged
(`none` when the handler aborted before parsing). -/
structure NewSmsOut where
  processed : List String
  sent : List String
  lastCmti : Nat
  parsed : Option String
deriving DecidableEq

/-- Embeds `ModemHandler.parse_sms_content` (modem_handler.py lines 382-403;
the code after the first `return` is unreachable).  Finds the first
line starting with `+CMGR:`, re-searches it for `\+CMGR: (.+)$` (i.e.
the first occurrence of the literal `+CMGR: ` followed by a non-empty
remainder), splits the group on commas, and formats
status/sender/timestamp, hex-decoding the sender. -/
def parse_sms_content (content : String) : String :=
  let lines := Modem.pySplit '\n' content
  match lines.find? (fun l => Modem.strStarts l "+CMGR:") with
  | none => "Error: CMGR header not found"
  | some header =>
    match headerGroup header.data with
    | some grp =>
      let parts := Modem.pySplit ',' (String.mk grp)
      if 4 ≤ parts.length then
        "Status: " ++ Modem.stripQuotes (parts.getD 0 "") ++
        "\nFrom: " ++ Modem.decode_hex_string (Modem.stripQuotes (parts.getD 1 "")) ++
        "\nTimestamp: " ++ Modem.stripQuotes (parts.getD 3 "") ++
        "\nMessage: [Waiting for content]"
      else unknownParse
    | none => unknownParse
where
  /-- Model of the search for the pattern that is literally `+CMGR: ` followed
  by the group `(.+)$`: the header line contains no
  newline (it came from `content.split('\n')`), so `(.+)$` matches iff
  the remainder after the literal `+CMGR: ` is non-empty; the search
  scans start positions left to right. -/
  headerGroup : List Char → Option (List Char)
  | [] => none
  | c :: cs =>
    match c :: cs with
    | '+' :: 'C' :: 'M' :: 'G' :: 'R' :: ':' :: ' ' :: rest =>
      if rest.isEmpty then headerGroup cs else some rest
    | _ => headerGroup cs
  unknownParse : String :=
    "Status: Unknown\nFrom: Unknown\nTimestamp: Unknown\nMessage: [Waiting for content]"

/-- Embeds `ModemHandler.handle_new_sms` (modem_handler.py lines 246-285).
Only the first block is live: each of the duplicated blocks that follow
it either re-enters with `index in self.processed_messages` already true
(success path) and returns at once, or is unreachable because the first
block returned.  The function debounces notifications arriving within
2 seconds, skips already-processed indices, inserts the index into
`processed_messages` *before* fetching, aborts (without deleting) when
the `AT+CMGR` response lacks `"OK"`, and otherwise parses, appends the
decoded extra event line, and issues `AT+CMGD`. -/
def handle_new_sms (processed : List String) (lastCmti now : Nat)
    (notification : String) (env : NewSmsEnv) : NewSmsOut :=
  if now - lastCmti < 2 then ⟨processed, [], lastCmti, none⟩
  else
    match Modem.searchCmti notification.data with
    | none => ⟨processed, [], now, none⟩
    | some idxChars =>
      let index := String.mk idxChars
      if index ∈ processed then ⟨processed, [], now, none⟩
      else
        let processed1 := index :: processed
        let cmgrCmd := "AT+CMGR=" ++ index
        if Modem.containsTok env.cmgrResp "OK" then
          let p0 := parse_sms_content env.cmgrResp
          let p1 :=
            match env.additionalEvent with
            | some ev => p0 ++ "\nMessage: " ++ Modem.decode_hex_string ev
            | none => p0
          ⟨processed1, [cmgrCmd, "AT+CMGD=" ++ index], now, some p1⟩
        else ⟨processed1, [cmgrCmd], now, none⟩

end MH

namespace BA

/-!  Embedding of `basic_at_commands.py`. -/

/-- The classifier inside `ModemHandler.read_serial`
(basic_at_commands.py lines 125-131): the in-flight test adds the `>`
prompt to the terminal tokens; the `elif '+CMTI:' in line` branch and
the final `else` both put the line on the event queue. -/
def route (cur : Option String) (line : String) : Modem.Route :=
  if Modem.currentTruthy cur &&
      (Modem.echoMatch cur line || line == "OK" || line == "ERROR" || line == ">" ||
        Modem.strStarts line "+")
  then Modem.Route.response else Modem.Route.event

/-- The global `RESPONSE_PHONE_NUMBER` (basic_at_commands.py line 14). -/
def RESPONSE_PHONE_NUMBER : String := "3147654655"

/-- The parsed dictionary returned by `parse_sms_content`
(basic_at_commands.py lines 186-191). -/
structure ParsedSms where
  status : String
  sender : String
  timestamp : String
  message : String
deriving DecidableEq

/-- Match `"([^"]+)"` at the head of the list: an opening quote, a
non-empty greedy run of non-quote characters, a closing quote.  Returns
the group and the remainder. -/
def quotedAt : List Char → Option (List Char × List Char)
  | '"' :: r =>
    match r.span (fun c => c != '"') with
    | (q, rest) =>
      if q.isEmpty then none
      else
        match rest with
        | '"' :: r2 => some (q, r2)
        | _ => none
  | _ => none

/-- Match the tail `,\s*"([^"]+)"` of the `+CMGR` header pattern at the
head of the list, returning the final capture group. -/
def tailMatch : List Char → Option (List Char)
  | ',' :: r => (quotedAt (r.dropWhile Modem.pyIsSpace)).map Prod.fst
  | _ => none

/-- The lazy group `(.*?)` followed by `,\s*"([^"]+)"`: try the empty
middle first and extend one character at a time; `.` does not match a
newline.  Returns the final capture group. -/
def lazyScan : List Char → Option (List Char)
  | [] => none
  | c :: rest =>
    match tailMatch (c :: rest) with
    | some g4 => some g4
    | none => if c = '\n' then none else lazyScan rest

/-- Try the header pattern
`\+CMGR:\s*"([^"]+)",\s*"([^"]+)",(.*?),\s*"([^"]+)"` at the head of
the list, returning `(status, sender, timestamp)` (the third group is
unused by the code). -/
def cmgrAt : List Char → Option (String × String × String)
  | '+' :: 'C' :: 'M' :: 'G' :: 'R' :: ':' :: rest =>
    match quotedAt (rest.dropWhile Modem.pyIsSpace) with
    | none => none
    | some (g1, r1) =>
      match r1 with
      | ',' :: r2 =>
        match quotedAt (r2.dropWhile Modem.pyIsSpace) with
        | none => none
        | some (g2, r3) =>
          match r3 with
          | ',' :: r4 =>
            match lazyScan r4 with
            | none => none
            | some g4 => some (String.mk g1, String.mk g2, String.mk g4)
          | _ => none
      | _ => none
  | _ => none

/-- Model of `re.search` for the `+CMGR` header pattern: first matching start
position wins. -/
def searchCmgr : List Char → Option (String × String × String)
  | [] => none
  | c :: cs =>
    match cmgrAt (c :: cs) with
    | some r => some r
    | none => searchCmgr cs

/-- Locate the first line starting with `+CMGR:`
(`next((line for line in lines if line.startswith('+CMGR:')), '')`)
together with the lines after it (`lines[lines.index(header)+1:]`;
the first equal element is the first satisfying element, so the two
Python lookups agree). -/
def splitAtHeader : List String → Option (String × List String)
  | [] => none
  | l :: ls =>
    if Modem.strStarts l "+CMGR:" then some (l, ls) else splitAtHeader ls

/-- Embeds `ModemHandler.parse_sms_content` (basic_at_commands.py lines
163-191): `None` when the content has fewer than two lines or no
`+CMGR:` header; header fields fall back to `"Unknown"` when the regex
fails; the message is the join of the stripped non-empty lines after
the header, excluding bare `OK` lines. -/
def parse_sms_content (content : String) : Option ParsedSms :=
  let lines := Modem.pySplit '\n' content
  if lines.length < 2 then none
  else
    match splitAtHeader lines with
    | none => none
    | some (header, after) =>
      let fields :=
        match searchCmgr header.data with
        | some g => g
        | none => ("Unknown", "Unknown", "Unknown")
      let message :=
        Modem.joinWith "\n"
          ((after.map Modem.pyStrip).filter (fun l => l != "" && l != "OK"))
      some ⟨fields.1, fields.2.1, fields.2.2, message⟩

/-- Embeds `ModemHandler.process_sms_command` (basic_at_commands.py lines
194-208) as a function of the system-metric strings supplied by
`psutil`; returns the single `(phone_number, response)` pair that is
put on `outgoing_sms_queue`. -/
def process_sms_command (cpuUsage ramInfo : String) (sms : ParsedSms) :
    String × String :=
  let command := Modem.pyLower (Modem.pyStrip sms.message)
  let response :=
    if command = "cpu" then "CPU Usage: " ++ cpuUsage ++ "%"
    else if command = "ram" then "Available RAM: " ++ ramInfo
    else "Unknown command: " ++ command
  (RESPONSE_PHONE_NUMBER, response)

/-- Dedup key of `processed_messages`:
`(parsed_content['sender'], parsed_content['timestamp'],
parsed_content['message'])`. -/
abbrev MsgKey := String × String × String

/-- Embeds `ModemHandler.clean_processed_messages` (basic_at_commands.py lines
227-231): delete every entry whose age exceeds 3600 seconds. -/
def clean_processed_messages (now : Nat) (processed : List (MsgKey × Nat)) :
    List (MsgKey × Nat) :=
  processed.filter (fun e => ¬ now - e.2 > 3600)

/-- Oracle for one `handle_incoming_sms` run. -/
structure InSmsEnv where
  cmgrResp : String
  deleteResp : String
  cpuUsage : String
  ramInfo : String
deriving DecidableEq

/-- Result of one `handle_incoming_sms` run: the updated
`processed_messages` dictionary, the AT commands issued via
`send_command`, and the messages put on `outgoing_sms_queue`. -/
structure InSmsOut where
  processed : List (MsgKey × Nat)
  sent : List String
  queued : List (String × String)
deriving DecidableEq

/-- Embeds `ModemHandler.handle_incoming_sms` (basic_at_commands.py lines
139-161): extract the index, fetch with `AT+CMGR`, parse (the fetch
outcome itself is never checked), insert the content key and queue a
reply only on a successful non-duplicate parse, then delete with
`AT+CMGD` unconditionally and sweep old entries. -/
def handle_incoming_sms (processed : List (MsgKey × Nat)) (now : Nat)
    (notification : String) (env : InSmsEnv) : InSmsOut :=
  match Modem.searchCmti notification.data with
  | none => ⟨processed, [], []⟩
  | some idxChars =>
    let index := String.mk idxChars
    let cmgrCmd := "AT+CMGR=" ++ index
    let step :=
      match parse_sms_content env.cmgrResp with
      | none => (processed, ([] : List (String × String)))
      | some p =>
        let key : MsgKey := (p.sender, p.timestamp, p.message)
        if key ∈ processed.map Prod.fst then (processed, [])
        else ((key, now) :: processed, [process_sms_command env.cpuUsage env.ramInfo p])
    ⟨clean_processed_messages now step.1, [cmgrCmd, "AT+CMGD=" ++ index], step.2⟩

/-- The Ctrl-Z terminator `chr(26)` appended to the SMS body. -/
def CTRLZ : String := String.mk ['\x1a']

/-- Oracle for one `send_sms` run: the strings returned by the four
possible `send_command` calls. -/
structure SendSmsEnv where
  cmgfResp : String
  cscsResp : String
  cmgsResp : String
  payloadResp : String
deriving DecidableEq

/-- Embeds `ModemHandler.send_sms` (basic_at_commands.py lines 233-255):
configure text mode and character set, issue `AT+CMGS="<phone>"`; if
the response contains the `>` prompt, send the body followed by Ctrl-Z
and succeed iff the response contains `+CMGS:`; otherwise fail at once.
Returns the success flag and the command texts written. -/
def send_sms (phone message : String) (env : SendSmsEnv) : Bool × List String :=
  let setup := ["AT+CMGF=1", "AT+CSCS=\"GSM\""]
  let cmgsCmd := "AT+CMGS=\"" ++ phone ++ "\""
  if Modem.containsTok env.cmgsResp ">" then
    let fullMessage := message ++ CTRLZ
    (Modem.containsTok env.payloadResp "+CMGS:", setup ++ [cmgsCmd, fullMessage])
  else (false, setup ++ [cmgsCmd])

end BA

namespace Exec

/-!  Interleaving model of the lock-guarded executor.

`send_command` in both files runs its whole body under
`with self.lock:` (modem_handler.py line 107, basic_at_commands.py
line 76): acquire the `threading.Lock`, then once per attempt write
`command + '\r\n'` to the wire and wait, and release the lock on exit
(the `with` block covers success, failure and exceptions).  A thread's
program is therefore `acquire; write^attempts; release`.  Threads are
interleaved by an arbitrary scheduler; a thread whose next action is
not enabled (the lock is busy, or held by someone else) simply blocks.
The wire and the lock discipline are recorded as a trace of events. -/

/-- One program action of a thread executing `send_command`. -/
inductive PAct where
  | acq
  | wr (c : String)
  | rel
deriving DecidableEq

/-- One recorded event: which thread acquired, wrote what, released. -/
inductive TrEv where
  | acq (t : Nat)
  | wr (t : Nat) (c : String)
  | rel (t : Nat)
deriving DecidableEq

/-- Predicate for release events (the end of a transaction: the lock is
given up when the response is terminal, the attempts time out, or an
exception escapes). -/
def TrEv.isRel : TrEv → Bool
  | TrEv.rel _ => true
  | _ => false

/-- Global configuration: the lock owner, each thread's remaining
program (indexed by thread id), and the event trace so far. -/
structure Conf where
  lock : Option Nat
  progs : List (List PAct)
  trace : List TrEv
deriving DecidableEq

/-- Let thread `i` take one step if its next action is enabled:
`acquire` needs a free lock, `write`/`release` need `i` to hold it;
otherwise the configuration is unchanged (the thread blocks). -/
def doAct (cf : Conf) (i : Nat) : Conf :=
  match cf.progs[i]? with
  | some (PAct.acq :: rest) =>
    match cf.lock with
    | none =>
      { lock := some i, progs := cf.progs.set i rest,
        trace := cf.trace ++ [TrEv.acq i] }
    | some _ => cf
  | some (PAct.wr c :: rest) =>
    if cf.lock = some i then
      { cf with progs := cf.progs.set i rest, trace := cf.trace ++ [TrEv.wr i c] }
    else cf
  | some (PAct.rel :: rest) =>
    if cf.lock = some i then
      { lock := none, progs := cf.progs.set i rest,
        trace := cf.trace ++ [TrEv.rel i] }
    else cf
  | _ => cf

/-- Run a schedule: at each step the named thread attempts its next
action. -/
def runConf (cf : Conf) : List Nat → Conf
  | [] => cf
  | i :: s => runConf (doAct cf i) s

/-- The program of one `send_command(c, max_attempts=attempts)` call:
acquire the execution lock, write the same command once per attempt,
release. -/
def sendProg (c : String) (attempts : Nat) : List PAct :=
  PAct.acq :: (List.replicate attempts (PAct.wr c) ++ [PAct.rel])

/-- Initial configuration: one caller thread per command text, all
programs unstarted, free lock, empty trace. -/
def initConf (cmds : List String) (attempts : Nat) : Conf :=
  ⟨none, cmds.map (fun c => sendProg c attempts), []⟩

/-- Run of `runConf` from the initial configuration. -/
def runSenders (cmds : List String) (attempts : Nat) (sched : List Nat) : Conf :=
  runConf (initConf cmds attempts) sched

/-- Lock-discipline legality of a trace, starting from holder `h`:
acquisition needs a free lock, writes and releases need the current
holder. -/
def legalFrom (h : Option Nat) : List TrEv → Prop
  | [] => True
  | TrEv.acq t :: tr => h = none ∧ legalFrom (some t) tr
  | TrEv.wr t _ :: tr => h = some t ∧ legalFrom h tr
  | TrEv.rel t :: tr => h = some t ∧ legalFrom none tr

/-- The lock holder after a trace, starting from holder `h`. -/
def lockAfter (h : Option Nat) : List TrEv → Option Nat
  | [] => h
  | TrEv.acq t :: tr => lockAfter (some t) tr
  | TrEv.wr _ _ :: tr => lockAfter h tr
  | TrEv.rel _ :: tr => lockAfter none tr

/-- The threads with an open transaction (acquired, not yet released)
after a trace, given those already open. -/
def openAfter (cur : List Nat) : List TrEv → List Nat
  | [] => cur
  | TrEv.acq t :: tr => openAfter (t :: cur) tr
  | TrEv.wr _ _ :: tr => openAfter cur tr
  | TrEv.rel t :: tr => openAfter (cur.erase t) tr

/-- Number of wire writes by thread `t` in a trace. -/
def countWr (t : Nat) : List TrEv → Nat
  | [] => 0
  | TrEv.wr u _ :: tr => (if u = t then 1 else 0) + countWr t tr
  | _ :: tr => countWr t tr

/-- Number of pending write actions in a thread's remaining program. -/
def wrCount : List PAct → Nat
  | [] => 0
  | PAct.wr _ :: pr => 1 + wrCount pr
  | _ :: pr => wrCount pr

end Exec

/-! ### Lemmas about the hex / UTF-16BE codec -/

theorem string_mk_data (s : String) : String.mk s.data = s := rfl

theorem char_bounds (c : Char) :
    c.toNat < 0x110000 ∧ (c.toNat < 0xD800 ∨ 0xE000 ≤ c.toNat) := by
  have h := c.valid
  unfold UInt32.isValidChar Nat.isValidChar at h
  unfold Char.toNat
  omega

theorem hexDigitLower_isHex {n : Nat} (h : n < 16) :
    isHexChar (hexDigitLower n) = true := by
  interval_cases n <;> decide

theorem hexDigitVal_hexDigitLower {n : Nat} (h : n < 16) :
    hexDigitVal (hexDigitLower n) = some n := by
  interval_cases n <;> decide

theorem bytesToHex_isHex {bs : List Nat} (h : ∀ b ∈ bs, b < 256) :
    ∀ c ∈ bytesToHex bs, isHexChar c = true := by
  induction bs with
  | nil => simp [bytesToHex]
  | cons b bs ih =>
    intro c hc
    have hb : b < 256 := h b (by simp)
    simp [bytesToHex, byteToHex] at hc
    rcases hc with hc | hc | hc
    · subst hc; exact hexDigitLower_isHex (by omega)
    · subst hc; exact hexDigitLower_isHex (by omega)
    · exact ih (fun x hx => h x (by simp [hx])) c hc

theorem pyUnhexlify_bytesToHex {bs : List Nat} (h : ∀ b ∈ bs, b < 256) :
    pyUnhexlify (bytesToHex bs) = some bs := by
  induction bs with
  | nil => rfl
  | cons b bs ih =>
    have hb : b < 256 := h b (by simp)
    have h1 := hexDigitVal_hexDigitLower (n := b / 16) (by omega)
    have h2 := hexDigitVal_hexDigitLower (n := b % 16) (by omega)
    have ih2 := ih (fun x hx => h x (by simp [hx]))
    simp [bytesToHex, byteToHex, pyUnhexlify, h1, h2, ih2]
    omega

theorem utf16beEncodeChar_lt (c : Char) : ∀ b ∈ utf16beEncodeChar c, b < 256 := by
  intro b hb
  have h := (char_bounds c).1
  by_cases hn : c.toNat < 0x10000 <;> simp [utf16beEncodeChar, hn] at hb <;>
    rcases hb with hb | hb <;> try rcases hb with hb | hb
  all_goals omega

theorem utf16beEncode_lt (l : List Char) : ∀ b ∈ utf16beEncode l, b < 256 := by
  induction l with
  | nil => simp [utf16beEncode]
  | cons c cs ih =>
    intro b hb
    simp [utf16beEncode] at hb
    rcases hb with hb | hb
    · exact utf16beEncodeChar_lt c b hb
    · exact ih b hb

theorem toUnits_encode (l : List Char) :
    toUnits (utf16beEncode l) = some (utf16Units l) := by
  induction l with
  | nil => rfl
  | cons c cs ih =>
    by_cases hn : c.toNat < 0x10000 <;>
      simp [utf16beEncode, utf16beEncodeChar, utf16Units, toUnits, hn, ih]
    · omega
    · constructor <;> omega

theorem unitsToChars_cons_bmp {u : Nat} (hu : u < 0xD800 ∨ 0xE000 ≤ u)
    (r : List Nat) :
    unitsToChars (u :: r) = (unitsToChars r).map (Char.ofNat u :: ·) := by
  cases r with
  | nil => rw [unitsToChars.eq_2, if_pos hu]
  | cons v r2 => rw [unitsToChars.eq_3, if_pos hu]

theorem unitsToChars_cons_surr {u v : Nat} (h1 : ¬(u < 0xD800 ∨ 0xE000 ≤ u))
    (h2 : u < 0xDC00) (h3 : 0xDC00 ≤ v ∧ v < 0xE000) (r2 : List Nat) :
    unitsToChars (u :: v :: r2) =
      (unitsToChars r2).map
        (Char.ofNat (0x10000 + (u - 0xD800) * 1024 + (v - 0xDC00)) :: ·) := by
  rw [unitsToChars.eq_3, if_neg h1, if_pos h2, if_pos h3]

theorem unitsToChars_units (l : List Char) :
    unitsToChars (utf16Units l) = some l := by
  induction l with
  | nil => rfl
  | cons c cs ih =>
    have hb := char_bounds c
    by_cases hn : c.toNat < 0x10000
    · have hval : c.toNat < 0xD800 ∨ 0xE000 ≤ c.toNat := hb.2
      simp only [utf16Units, if_pos hn, List.cons_append, List.nil_append]
      rw [unitsToChars_cons_bmp hval, ih]
      simp [Char.ofNat_toNat]
    · have hv : c.toNat - 0x10000 < 0x100000 := by omega
      simp only [utf16Units, if_neg hn, List.cons_append, List.nil_append]
      rw [unitsToChars_cons_surr (by omega) (by omega) (by omega), ih]
      have he : 0x10000 + (0xD800 + (c.toNat - 0x10000) / 1024 - 0xD800) * 1024 +
          (0xDC00 + (c.toNat - 0x10000) % 1024 - 0xDC00) = c.toNat := by omega
      rw [he]
      simp [Char.ofNat_toNat]

theorem pyUnhexlify_odd : ∀ l : List Char, l.length % 2 = 1 → pyUnhexlify l = none
  | [], h => by simp at h
  | [_], _ => rfl
  | a :: b :: rest, h => by
    have hr : rest.length % 2 = 1 := by
      simp [List.length_cons] at h ⊢
      omega
    have hres := pyUnhexlify_odd rest hr
    cases ha : hexDigitVal a <;> cases hb2 : hexDigitVal b <;>
      simp [pyUnhexlify, ha, hb2, hres]

theorem decode_hex_roundtrip (s : String) :
    decode_hex_string (String.mk (bytesToHex (utf16beEncode s.data))) = s := by
  have hlt := utf16beEncode_lt s.data
  unfold decode_hex_string
  show (match pyUnhexlify ((bytesToHex (utf16beEncode s.data)).filter isHexChar) with
    | none => String.mk ((bytesToHex (utf16beEncode s.data)).filter isHexChar)
    | some bytes =>
      match utf16beDecode bytes with
      | none => String.mk ((bytesToHex (utf16beEncode s.data)).filter isHexChar)
      | some chars => String.mk chars) = s
  rw [List.filter_eq_self.mpr (bytesToHex_isHex hlt), pyUnhexlify_bytesToHex hlt]
  simp only [utf16beDecode, toUnits_encode, unitsToChars_units, string_mk_data]

theorem decode_hex_fallback {s : String}
    (h : pyUnhexlify (s.data.filter isHexChar) = none) :
    decode_hex_string s = String.mk (s.data.filter isHexChar) := by
  simp only [decode_hex_string, h]

/-- Claim C3 counterexample: the input `"GG"` is malformed hex (it
consists of the invalid non-hex character `G`), yet `decode_hex_string`
does not return the original input unchanged — the code first deletes
the invalid characters and then successfully decodes the empty rest, so
the result is the empty string. -/
theorem c3_counterexample :
    ("GG" : String).data.all isHexChar = false ∧
    decode_hex_string "GG" = "" ∧ ("" : String) ≠ "GG" := by
  decide

/-- Claim C3 (amended): for every string `s` encodable as UTF-16BE,
`decode_hex_string` applied to the hexadecimal encoding of `s`'s
UTF-16BE bytes returns `s`.  `decode_hex_string` never raises, but on
malformed input it first removes every non-hex character; when decoding
the filtered digits fails the *filtered* string is returned, which
equals the original input only when the input contained no invalid
characters — in particular an odd number of hex digits and nothing else
is returned unchanged. -/
theorem c3_hex_roundtrip_amended :
    (∀ s : String,
        decode_hex_string (String.mk (bytesToHex (utf16beEncode s.data))) = s) ∧
    (∀ s : String, pyUnhexlify (s.data.filter isHexChar) = none →
        decode_hex_string s = String.mk (s.data.filter isHexChar)) ∧
    (∀ s : String, (∀ c ∈ s.data, isHexChar c = true) → s.data.length % 2 = 1 →
        decode_hex_string s = s) := by
  refine ⟨decode_hex_roundtrip, fun s h => decode_hex_fallback h, fun s hhex hodd => ?_⟩
  have : decode_hex_string s = String.mk (s.data.filter isHexChar) :=
    decode_hex_fallback (by rw [List.filter_eq_self.mpr hhex]; exact pyUnhexlify_odd _ hodd)
  rw [this, List.filter_eq_self.mpr hhex]

/-- Witness for the amended claim C3: the odd-length pure-hex input
`"ABC"` is returned unchanged, and the round trip recovers `"Hi"`. -/
theorem c3_hex_roundtrip_witness :
    decode_hex_string "ABC" = "ABC" ∧
    decode_hex_string (String.mk (bytesToHex (utf16beEncode "Hi".data))) = "Hi" :=
  ⟨c3_hex_roundtrip_amended.2.2 "ABC" (by decide) (by decide),
   c3_hex_roundtrip_amended.1 "Hi"⟩

/-! ### Lemmas about the line classifier -/

theorem ite_route_response {b : Bool} :
    (if b then Route.response else Route.event) = Route.response ↔ b = true := by
  cases b <;> simp

/-- Claim C1 counterexample: while `send_command("")` is executing (an
empty command entered at the interactive prompt reaches
`self.current_command = ""`), a command is in flight and the line `OK`
is a terminal token, yet both classifiers route it to the event queue,
because `if self.current_command and ...` treats the empty string as
falsy. -/
theorem c1_counterexample :
    MH.respTerminal "OK" = true ∧
    MH.route (some "") "OK" = Route.event ∧
    BA.route (some "") "OK" = Route.event := by
  decide

/-- Claim C1 (amended): a complete, stripped, non-empty line is placed
on the response queue iff a command with *non-empty* text is in flight
and the line equals its echo, is a terminal token (`OK`/`ERROR` in
modem_handler.py, additionally `>` in basic_at_commands.py), or starts
with `+`; when no command is in flight — or the in-flight command text
is empty — every such line is placed on the event queue, and every line
is placed on exactly one of the two queues, never dropped. -/
theorem c1_classifier_amended :
    (∀ line, MH.route none line = Route.event ∧ BA.route none line = Route.event) ∧
    (∀ line, MH.route (some "") line = Route.event ∧
        BA.route (some "") line = Route.event) ∧
    (∀ c line, c ≠ "" →
        (MH.route (some c) line = Route.response ↔
          (line = c ∨ line = "OK" ∨ line = "ERROR" ∨ strStarts line "+" = true))) ∧
    (∀ c line, c ≠ "" →
        (BA.route (some c) line = Route.response ↔
          (line = c ∨ line = "OK" ∨ line = "ERROR" ∨ line = ">" ∨
            strStarts line "+" = true))) ∧
    (∀ cur line, MH.route cur line = Route.response ∨ MH.route cur line = Route.event) ∧
    (∀ cur line, BA.route cur line = Route.response ∨ BA.route cur line = Route.event) := by
  refine ⟨fun line => ?_, fun line => ?_, fun c line hc => ?_, fun c line hc => ?_,
    fun cur line => ?_, fun cur line => ?_⟩
  · constructor <;> rfl
  · constructor <;> rfl
  · rw [MH.route, ite_route_response]
    simp [currentTruthy, echoMatch, bne_iff_ne, hc]
    tauto
  · rw [BA.route, ite_route_response]
    simp [currentTruthy, echoMatch, bne_iff_ne, hc]
    tauto
  · unfold MH.route; split <;> simp
  · unfold BA.route; split <;> simp

/-- Witness for the amended claim C1: with `AT` in flight, the terminal
line `OK` goes to the response queue; with the empty command in flight,
the unsolicited-looking line `+CMTI: "ME",1` goes to the event queue. -/
theorem c1_classifier_witness :
    MH.route (some "AT") "OK" = Route.response ∧
    MH.route (some "") "+CMTI: \"ME\",1" = Route.event :=
  ⟨(c1_classifier_amended.2.2.1 "AT" "OK" (by decide)).mpr (by decide),
   (c1_classifier_amended.2.1 "+CMTI: \"ME\",1").1⟩

/-! ### Lemmas about the retry loop of `MH.send_command` -/

theorem waitAux_ne_none :
    ∀ (arrs acc : List String), acc ≠ [] → MH.waitAux acc arrs ≠ none := by
  intro arrs
  induction arrs with
  | nil =>
    intro acc hacc
    cases acc with
    | nil => exact absurd rfl hacc
    | cons x xs => simp [MH.waitAux]
  | cons l ls ih =>
    intro acc hacc
    by_cases ht : MH.respTerminal l = true <;> simp [MH.waitAux, ht]
    exact ih (l :: acc) (by simp)

theorem wait_none {att : List String}
    (h : MH.wait_for_response att = none) : att = [] := by
  cases att with
  | nil => rfl
  | cons l ls =>
    exfalso
    revert h
    unfold MH.wait_for_response
    by_cases ht : MH.respTerminal l = true <;> simp [MH.waitAux, ht]
    exact waitAux_ne_none ls [l] (by simp)

theorem waitAux_no_terminal :
    ∀ (arrs acc : List String), (acc ≠ [] ∨ arrs ≠ []) →
      (∀ l ∈ arrs, MH.respTerminal l = false) →
      MH.waitAux acc arrs = some (joinWith "\n" (acc.reverse ++ arrs)) := by
  intro arrs
  induction arrs with
  | nil =>
    intro acc hor hnt
    rcases hor with h | h
    · cases acc with
      | nil => exact absurd rfl h
      | cons x xs => simp [MH.waitAux]
    · exact absurd rfl h
  | cons l ls ih =>
    intro acc hor hnt
    have ht : MH.respTerminal l = false := hnt l (by simp)
    simp only [MH.waitAux, ht, Bool.false_eq_true, if_false]
    rw [ih (l :: acc) (Or.inl (by simp)) (fun x hx => hnt x (by simp [hx]))]
    congr 1
    simp

theorem wait_no_terminal {att : List String} (hne : att ≠ [])
    (hnt : ∀ l ∈ att, MH.respTerminal l = false) :
    MH.wait_for_response att = some (joinWith "\n" att) := by
  have := waitAux_no_terminal att [] (Or.inr hne) hnt
  simpa [MH.wait_for_response] using this

theorem sendGo_skip (c : String) :
    ∀ (pre rest : List (List String)) (acc : List String),
      (∀ a ∈ pre, a = []) → rest ≠ [] →
      MH.sendGo c (pre ++ rest) acc =
        MH.sendGo c rest (List.replicate pre.length c ++ acc) := by
  intro pre
  induction pre with
  | nil => intro rest acc _ _; simp
  | cons a pre ih =>
    intro rest acc hall hrest
    obtain rfl : a = [] := hall a (by simp)
    have hne : pre ++ rest ≠ [] := by
      intro h
      exact hrest (List.append_eq_nil.mp h).2
    simp only [List.cons_append, MH.sendGo, MH.wait_for_response, MH.waitAux,
      List.isEmpty_nil, if_true, List.append_eq]
    rw [if_neg (by simpa [List.isEmpty_iff] using hne)]
    rw [ih rest (c :: acc) (fun x hx => hall x (by simp [hx])) hrest]
    simp [List.replicate_succ', List.append_assoc]

theorem sendGo_noResponse (c : String) :
    ∀ (sched : List (List String)) (acc : List String),
      (MH.sendGo c sched acc).2 = MH.CmdResult.noResponse → ∀ a ∈ sched, a = [] := by
  intro sched
  induction sched with
  | nil => intro acc h; simp [MH.sendGo] at h
  | cons att rest ih =>
    intro acc h a ha
    by_cases hw : MH.wait_for_response att = none
    · obtain rfl : att = [] := wait_none hw
      rcases List.mem_cons.mp ha with rfl | ha2
      · rfl
      · cases hre : rest with
        | nil => subst hre; simp at ha2
        | cons r rs =>
          subst hre
          simp only [MH.sendGo, hw, List.isEmpty_cons, if_false] at h
          exact ih (c :: acc) h a ha2
    · obtain ⟨r, hr⟩ := Option.ne_none_iff_exists'.mp hw
      simp [MH.sendGo, hr] at h

/-- Claim C9: when at least one response line arrives within an
attempt's window but no terminal token is seen, `send_command` returns
the joined partial lines as a successful response after that attempt
(one write per earlier empty attempt, none after), and the
`"Error: No response from modem"` value is produced only when every
attempt saw zero lines. -/
theorem c9_incomplete_response :
    (∀ (c : String) (pre : List (List String)) (att : List String)
        (rest : List (List String)),
        (∀ a ∈ pre, a = []) → att ≠ [] →
        (∀ l ∈ att, MH.respTerminal l = false) →
        MH.send_command c (pre ++ att :: rest) =
          (List.replicate (pre.length + 1) c,
            MH.CmdResult.ok (joinWith "\n" att))) ∧
    (∀ (c : String) (sched : List (List String)),
        (MH.send_command c sched).2 = MH.CmdResult.noResponse →
        ∀ a ∈ sched, a = []) := by
  constructor
  · intro c pre att rest hpre hne hnt
    unfold MH.send_command
    rw [sendGo_skip c pre (att :: rest) [] hpre (by simp)]
    simp only [MH.sendGo, wait_no_terminal hne hnt, List.append_nil]
    simp [List.replicate_succ']
  · intro c sched h
    exact sendGo_noResponse c sched [] h

/-- Witness for claim C9: one empty attempt, then a non-terminal line,
returned as a success after the second write. -/
theorem c9_incomplete_response_witness :
    MH.send_command "AT" [[], ["+CSQ: 20,0"]] =
      (["AT", "AT"], MH.CmdResult.ok "+CSQ: 20,0") :=
  c9_incomplete_response.1 "AT" [[]] ["+CSQ: 20,0"] [] (by decide) (by decide)
    (by decide)

/-- Claim C4 counterexample: with `max_attempts = 3` and a first
attempt that delivers the non-terminal line `+FOO` (no terminal token
is observed in any attempt), the command is written once, not three
times, and the result is that partial line as a success, not the
no-response error. -/
theorem c4_counterexample :
    (∀ att ∈ [["+FOO"], [], []], ∀ l ∈ att, MH.respTerminal l = false) ∧
    MH.send_command "AT" [["+FOO"], [], []] = (["AT"], MH.CmdResult.ok "+FOO") ∧
    (["AT"] : List String).length = 1 ∧
    MH.CmdResult.ok "+FOO" ≠ MH.CmdResult.noResponse := by
  refine ⟨by decide, by decide, rfl, by decide⟩

/-- Claim C4 (amended): if `send_command` runs with `max_attempts = 3`
and *no response line at all* arrives within the per-attempt timeout on
any attempt, the command is written exactly 3 times (the same text,
immediately retried) and the result is the explicit
`"Error: No response from modem"` value. -/
theorem c4_retries_amended (c : String) (sched : List (List String))
    (h3 : sched.length = 3) (hempty : ∀ a ∈ sched, a = []) :
    MH.send_command c sched = ([c, c, c], MH.CmdResult.noResponse) := by
  obtain ⟨a, b, d, rfl⟩ := List.length_eq_three.mp h3
  obtain rfl : a = [] := hempty a (by simp)
  obtain rfl : b = [] := hempty b (by simp)
  obtain rfl : d = [] := hempty d (by simp)
  rfl

/-- Witness for the amended claim C4. -/
theorem c4_retries_witness :
    MH.send_command "AT" [[], [], []] =
      (["AT", "AT", "AT"], MH.CmdResult.noResponse) :=
  c4_retries_amended "AT" [[], [], []] (by decide) (by decide)

/-! ### Lemmas about `BA.send_sms` -/

theorem append_ctrlz_ne {s t : String} (h : t.data.getLast? ≠ some '\x1a') :
    s ++ BA.CTRLZ ≠ t := by
  intro he
  apply h
  rw [← he, String.data_append]
  exact List.getLast?_concat _

theorem cmgs_last (phone : String) :
    ("AT+CMGS=\"" ++ phone ++ "\"").data.getLast? = some '"' := by
  rw [String.data_append]
  exact List.getLast?_concat _

theorem payload_ne_cmgf (msg : String) : msg ++ BA.CTRLZ ≠ "AT+CMGF=1" :=
  append_ctrlz_ne (by decide)

theorem payload_ne_cscs (msg : String) : msg ++ BA.CTRLZ ≠ "AT+CSCS=\"GSM\"" :=
  append_ctrlz_ne (by decide)

theorem payload_ne_cmgs (msg phone : String) :
    msg ++ BA.CTRLZ ≠ "AT+CMGS=\"" ++ phone ++ "\"" :=
  append_ctrlz_ne (by rw [cmgs_last]; decide)

theorem chPre_append (p : List Char) : ∀ r, chPre p (p ++ r) = true := by
  induction p with
  | nil => intro r; rfl
  | cons a p ih => intro r; simp [chPre, ih]

theorem cmgf_ne_cmgs (phone : String) :
    ("AT+CMGF=1" : String) ≠ "AT+CMGS=\"" ++ phone ++ "\"" := by
  intro h
  have hp : chPre "AT+CMGS=\"".data ("AT+CMGF=1" : String).data = true := by
    rw [h, String.data_append, String.data_append, List.append_assoc]
    exact chPre_append _ _
  exact absurd hp (by decide)

theorem cscs_ne_cmgs (phone : String) :
    ("AT+CSCS=\"GSM\"" : String) ≠ "AT+CMGS=\"" ++ phone ++ "\"" := by
  intro h
  have hp : chPre "AT+CMGS=\"".data ("AT+CSCS=\"GSM\"" : String).data = true := by
    rw [h, String.data_append, String.data_append, List.append_assoc]
    exact chPre_append _ _
  exact absurd hp (by decide)

/-- Claim C5: in `send_sms`, if the response to `AT+CMGS="<phone>"`
does not contain the prompt `>`, the call fails without writing the
payload and without re-issuing the `AT+CMGS` command; if the prompt is
present, the body followed by Ctrl-Z is written and the call succeeds
iff the payload response contains `+CMGS:`. -/
theorem c5_send_sms_protocol (phone msg : String) (env : BA.SendSmsEnv) :
    (containsTok env.cmgsResp ">" = false →
        BA.send_sms phone msg env =
          (false, ["AT+CMGF=1", "AT+CSCS=\"GSM\"", "AT+CMGS=\"" ++ phone ++ "\""]) ∧
        (msg ++ BA.CTRLZ) ∉ (BA.send_sms phone msg env).2 ∧
        (BA.send_sms phone msg env).2.count ("AT+CMGS=\"" ++ phone ++ "\"") = 1) ∧
    (containsTok env.cmgsResp ">" = true →
        (BA.send_sms phone msg env).2 =
          ["AT+CMGF=1", "AT+CSCS=\"GSM\"", "AT+CMGS=\"" ++ phone ++ "\"",
            msg ++ BA.CTRLZ] ∧
        ((BA.send_sms phone msg env).1 = true ↔
          containsTok env.payloadResp "+CMGS:" = true)) := by
  constructor
  · intro h
    refine ⟨by simp [BA.send_sms, h], ?_, ?_⟩
    · simp only [BA.send_sms, h, Bool.false_eq_true, if_false]
      simp only [List.cons_append, List.nil_append, List.mem_cons,
        List.not_mem_nil, or_false]
      push_neg
      exact ⟨payload_ne_cmgf msg, payload_ne_cscs msg, payload_ne_cmgs msg phone⟩
    · simp only [BA.send_sms, h, Bool.false_eq_true, if_false]
      simp [List.count_cons, cmgf_ne_cmgs phone, cscs_ne_cmgs phone]
  · intro h
    refine ⟨by simp [BA.send_sms, h], ?_⟩
    simp [BA.send_sms, h]

/-- Witness for claim C5: the prompt arrives and the payload response
contains the confirmation, so the send succeeds after writing the body
with Ctrl-Z. -/
theorem c5_send_sms_witness :
    (BA.send_sms "+15551234567" "Hi" ⟨"OK", "OK", ">", "+CMGS: 12"⟩).2 =
      ["AT+CMGF=1", "AT+CSCS=\"GSM\"", "AT+CMGS=\"+15551234567\"",
        "Hi" ++ BA.CTRLZ] ∧
    ((BA.send_sms "+15551234567" "Hi" ⟨"OK", "OK", ">", "+CMGS: 12"⟩).1 = true ↔
      containsTok "+CMGS: 12" "+CMGS:" = true) :=
  (c5_send_sms_protocol "+15551234567" "Hi" ⟨"OK", "OK", ">", "+CMGS: 12"⟩).2
    (by decide)

/-! ### Claims about the SMS fetch pipeline -/

/-- Claim C6 counterexample: the `AT+CMGR` response `+CMGR: bla` lacks
the `OK` terminal token, so the claim requires the handler to abort
without recording index 7; `handle_new_sms` does abort without issuing
`AT+CMGD=7`, but index 7 *has* been inserted into `processed_messages`,
because the insertion happens before the fetch. -/
theorem c6_counterexample :
    containsTok "+CMGR: bla" "OK" = false ∧
    MH.handle_new_sms [] 0 100 "+CMTI: \"ME\",7" ⟨"+CMGR: bla", none, "OK"⟩ =
      ⟨["7"], ["AT+CMGR=7"], 100, none⟩ ∧
    ("7" : String) ∈
      (MH.handle_new_sms [] 0 100 "+CMTI: \"ME\",7"
        ⟨"+CMGR: bla", none, "OK"⟩).processed := by
  decide

/-- Claim C6 (amended): when the `AT+CMGR` response lacks the success
terminal token, `modem_handler`'s handler aborts without issuing
`AT+CMGD`, but only after having already inserted the notified index
into the processed-message record — index insertion precedes the fetch
rather than following a successful parse.  In `basic_at_commands` the
fetch outcome is never checked and `AT+CMGD` is issued unconditionally,
while the content-key insertion does happen only after a successful
parse. -/
theorem c6_processed_record_amended :
    (∀ (processed : List String) (lastCmti now : Nat) (notif : String)
        (env : MH.NewSmsEnv) (idx : List Char),
        ¬ now - lastCmti < 2 → searchCmti notif.data = some idx →
        String.mk idx ∉ processed → containsTok env.cmgrResp "OK" = false →
        (MH.handle_new_sms processed lastCmti now notif env).sent =
            ["AT+CMGR=" ++ String.mk idx] ∧
          String.mk idx ∈
            (MH.handle_new_sms processed lastCmti now notif env).processed) ∧
    (∀ (processed : List (BA.MsgKey × Nat)) (now : Nat) (notif : String)
        (env : BA.InSmsEnv) (idx : List Char),
        searchCmti notif.data = some idx →
        ("AT+CMGD=" ++ String.mk idx) ∈
          (BA.handle_incoming_sms processed now notif env).sent) ∧
    (∀ (processed : List (BA.MsgKey × Nat)) (now : Nat) (notif : String)
        (env : BA.InSmsEnv),
        BA.parse_sms_content env.cmgrResp = none →
        ∀ e ∈ (BA.handle_incoming_sms processed now notif env).processed,
          e ∈ processed) := by
  refine ⟨fun processed lastCmti now notif env idx h1 h2 h3 h4 => ?_,
    fun processed now notif env idx h2 => ?_,
    fun processed now notif env hp e he => ?_⟩
  · unfold MH.handle_new_sms
    rw [if_neg h1, h2]
    simp only [if_neg h3]
    rw [if_neg (by simp [h4])]
    exact ⟨rfl, by simp⟩
  · unfold BA.handle_incoming_sms
    rw [h2]
    simp
  · unfold BA.handle_incoming_sms at he
    cases hs : searchCmti notif.data with
    | none => rw [hs] at he; exact he
    | some idx =>
      rw [hs] at he
      simp only [hp] at he
      exact (List.mem_filter.mp he).1

/-- Witness for the amended claim C6: a concrete failed fetch records
index 7 and skips the delete. -/
theorem c6_processed_record_witness :
    (MH.handle_new_sms ["9"] 0 100 "+CMTI: \"ME\",7"
        ⟨"+CMGR: bla", none, "OK"⟩).sent = ["AT+CMGR=7"] ∧
    ("7" : String) ∈
      (MH.handle_new_sms ["9"] 0 100 "+CMTI: \"ME\",7"
        ⟨"+CMGR: bla", none, "OK"⟩).processed :=
  c6_processed_record_amended.1 ["9"] 0 100 "+CMTI: \"ME\",7"
    ⟨"+CMGR: bla", none, "OK"⟩ ['7'] (by decide) (by decide) (by decide) (by decide)

/-- The `AT+CMGR=3` response of the claim C7 scenario, as joined by
`send_command`: the header line, the body line `Hello`, and the
terminal `OK`. -/
def c7content : String :=
  "+CMGR: \"REC UNREAD\",\"+15551234567\",,\"24/01/01,12:00:00\"\nHello\nOK"

/-- Claim C7 counterexample: the claim also covers the parser of
`modem_handler.py` (lines 382-403), and on the very scenario response
that parser does *not* yield the claimed fields: the sender is
hex-filtered to `15551234567` (the `+` is dropped and the odd-length
hex fails to decode), the timestamp is truncated to `24/01/01` by the
comma split, and the message is the `[Waiting for content]`
placeholder — the formatted result contains neither `+15551234567` nor
`24/01/01,12:00:00` nor `Hello`. -/
theorem c7_counterexample :
    MH.parse_sms_content c7content =
      "Status: REC UNREAD\nFrom: 15551234567\nTimestamp: 24/01/01\nMessage: [Waiting for content]" ∧
    containsTok (MH.parse_sms_content c7content) "+15551234567" = false ∧
    containsTok (MH.parse_sms_content c7content) "24/01/01,12:00:00" = false ∧
    containsTok (MH.parse_sms_content c7content) "Hello" = false := by
  decide

/-- Claim C7 (amended): on the scenario response, the
`basic_at_commands` parser yields status `REC UNREAD`, sender
`+15551234567`, timestamp `24/01/01,12:00:00` and message `Hello`, and
its handler for notification `+CMTI: "ME",3` issues `AT+CMGD=3` after
the fetch; the `modem_handler` parser on the same response instead
yields sender `15551234567`, timestamp `24/01/01` and a
waiting-for-content placeholder message, and its handler (the response
contains `OK`) likewise issues `AT+CMGD=3`. -/
theorem c7_cmgr_scenario :
    BA.parse_sms_content c7content =
      some ⟨"REC UNREAD", "+15551234567", "24/01/01,12:00:00", "Hello"⟩ ∧
    (BA.handle_incoming_sms [] 50 "+CMTI: \"ME\",3"
        ⟨c7content, "OK", "7.5", "512.00 MB"⟩).sent =
      ["AT+CMGR=3", "AT+CMGD=3"] ∧
    MH.parse_sms_content c7content =
      "Status: REC UNREAD\nFrom: 15551234567\nTimestamp: 24/01/01\nMessage: [Waiting for content]" ∧
    (MH.handle_new_sms [] 0 100 "+CMTI: \"ME\",3" ⟨c7content, none, "OK"⟩).sent =
      ["AT+CMGR=3", "AT+CMGD=3"] := by
  decide

/-- Claim C8 counterexample: in `modem_handler.py` the processed-message
record is keyed by modem storage index and is *never* evicted: index 3
is inserted at time 100, and after the next notification arrives at
time 3701 = 100 + 3601 (which the claim says runs a sweep that evicts
it), index 3 is still present. -/
theorem c8_counterexample :
    (MH.handle_new_sms [] 0 100 "+CMTI: \"ME\",3" ⟨"ok OK", none, "OK"⟩).processed =
      ["3"] ∧
    ("3" : String) ∈
      (MH.handle_new_sms ["3"] 100 3701 "+CMTI: \"ME\",4"
        ⟨"ok OK", none, "OK"⟩).processed := by
  decide

/-- Claim C8 (amended): eviction holds for the content-key strategy of
`basic_at_commands.py`: an entry inserted at time `T` survives a sweep
at `T+3599` and is removed by a sweep at `T+3601` (the sweep runs at
the end of each matched notification).  The index-keyed record of
`modem_handler.py` has no eviction at all: `handle_new_sms` never
removes an index. -/
theorem c8_eviction_amended :
    (∀ (k : BA.MsgKey) (T : Nat) (l : List (BA.MsgKey × Nat)), (k, T) ∈ l →
        (k, T) ∈ BA.clean_processed_messages (T + 3599) l ∧
        (k, T) ∉ BA.clean_processed_messages (T + 3601) l) ∧
    (∀ (processed : List String) (lastCmti now : Nat) (notif : String)
        (env : MH.NewSmsEnv) (idx : String), idx ∈ processed →
        idx ∈ (MH.handle_new_sms processed lastCmti now notif env).processed) := by
  constructor
  · intro k T l h
    constructor
    · exact List.mem_filter.mpr ⟨h, by simp only [decide_eq_true_eq]; omega⟩
    · intro hc
      have h2 := (List.mem_filter.mp hc).2
      simp only [decide_eq_true_eq] at h2
      omega
  · intro processed lastCmti now notif env idx h
    unfold MH.handle_new_sms
    split
    · exact h
    · split
      · exact h
      · dsimp only
        split
        · exact h
        · split <;> simp [h]

/-- Witness for the amended claim C8: a concrete entry inserted at time
5 survives the sweep at time 3604 and is gone after the sweep at time
3606. -/
theorem c8_eviction_witness :
    ((("a", "b", "c") : BA.MsgKey), 5) ∈
        BA.clean_processed_messages 3604 [((("a", "b", "c") : BA.MsgKey), 5)] ∧
    ((("a", "b", "c") : BA.MsgKey), 5) ∉
        BA.clean_processed_messages 3606 [((("a", "b", "c") : BA.MsgKey), 5)] :=
  c8_eviction_amended.1 ("a", "b", "c") 5 [(("a", "b", "c"), 5)] (by decide)

/-- Claim C10: `process_sms_command` produces exactly one outgoing
reply, always addressed to the fixed `RESPONSE_PHONE_NUMBER` and
independent of the SMS sender; after trimming and lowercasing, the
bodies `cpu` and `ram` produce the system-info responses and every
other body produces an `Unknown command:` reply; every message that
`handle_incoming_sms` enqueues is addressed to that fixed number and at
most one is enqueued per notification. -/
theorem c10_reply_routing (cpu ram : String) (sms : BA.ParsedSms) :
    (BA.process_sms_command cpu ram sms).1 = BA.RESPONSE_PHONE_NUMBER ∧
    (∀ s, BA.process_sms_command cpu ram { sms with sender := s } =
        BA.process_sms_command cpu ram sms) ∧
    (pyLower (pyStrip sms.message) = "cpu" →
        (BA.process_sms_command cpu ram sms).2 = "CPU Usage: " ++ cpu ++ "%") ∧
    (pyLower (pyStrip sms.message) = "ram" →
        (BA.process_sms_command cpu ram sms).2 = "Available RAM: " ++ ram) ∧
    (pyLower (pyStrip sms.message) ≠ "cpu" →
        pyLower (pyStrip sms.message) ≠ "ram" →
        (BA.process_sms_command cpu ram sms).2 =
          "Unknown command: " ++ pyLower (pyStrip sms.message)) ∧
    (∀ (processed : List (BA.MsgKey × Nat)) (now : Nat) (notif : String)
        (env : BA.InSmsEnv),
        (∀ m ∈ (BA.handle_incoming_sms processed now notif env).queued,
            m.1 = BA.RESPONSE_PHONE_NUMBER) ∧
        (BA.handle_incoming_sms processed now notif env).queued.length ≤ 1) := by
  refine ⟨rfl, fun s => rfl, fun h => ?_, fun h => ?_, fun h1 h2 => ?_,
    fun processed now notif env => ?_⟩
  · simp [BA.process_sms_command, h]
  · simp [BA.process_sms_command, h]
  · simp [BA.process_sms_command, h1, h2]
  · unfold BA.handle_incoming_sms
    cases hs : searchCmti notif.data with
    | none => exact ⟨by simp, by simp⟩
    | some idx =>
      cases hp : BA.parse_sms_content env.cmgrResp with
      | none => exact ⟨by simp [hp], by simp [hp]⟩
      | some p =>
        simp only [hp]
        split
        · exact ⟨by simp, by simp⟩
        · exact ⟨by simp [BA.process_sms_command], by simp⟩

/-- Witness for claim C10: the body ` CPU ` is trimmed and lowercased
to `cpu` and answered with the CPU usage, addressed to the fixed
number. -/
theorem c10_reply_routing_witness :
    (BA.process_sms_command "7.5" "512.00 MB"
        ⟨"REC UNREAD", "+15551234567", "24/01/01,12:00:00", " CPU "⟩).2 =
      "CPU Usage: " ++ "7.5" ++ "%" :=
  (c10_reply_routing "7.5" "512.00 MB"
    ⟨"REC UNREAD", "+15551234567", "24/01/01,12:00:00", " CPU "⟩).2.2.1 (by decide)

/-! ### Lemmas about the interleaving model -/

theorem countWr_append (t : Nat) (a b : List Exec.TrEv) :
    Exec.countWr t (a ++ b) = Exec.countWr t a + Exec.countWr t b := by
  induction a with
  | nil => simp [Exec.countWr]
  | cons e a ih =>
    cases e with
    | acq u => simpa [Exec.countWr] using ih
    | rel u => simpa [Exec.countWr] using ih
    | wr u c =>
      simp [Exec.countWr, ih]
      omega

theorem lockAfter_append (h : Option Nat) (a b : List Exec.TrEv) :
    Exec.lockAfter h (a ++ b) = Exec.lockAfter (Exec.lockAfter h a) b := by
  induction a generalizing h with
  | nil => rfl
  | cons e a ih => cases e <;> simp [Exec.lockAfter, ih]

theorem legalFrom_append (h : Option Nat) (a b : List Exec.TrEv) :
    Exec.legalFrom h (a ++ b) ↔
      Exec.legalFrom h a ∧ Exec.legalFrom (Exec.lockAfter h a) b := by
  induction a generalizing h with
  | nil => simp [Exec.legalFrom, Exec.lockAfter]
  | cons e a ih =>
    cases e <;> simp [Exec.legalFrom, Exec.lockAfter, ih, and_assoc]

theorem wrCount_append (a b : List Exec.PAct) :
    Exec.wrCount (a ++ b) = Exec.wrCount a + Exec.wrCount b := by
  induction a with
  | nil => simp [Exec.wrCount]
  | cons e a ih =>
    cases e with
    | acq => simpa [Exec.wrCount] using ih
    | rel => simpa [Exec.wrCount] using ih
    | wr c => simp [Exec.wrCount, ih]; omega

theorem wrCount_sendProg (c : String) (attempts : Nat) :
    Exec.wrCount (Exec.sendProg c attempts) = attempts := by
  show Exec.wrCount (Exec.PAct.acq :: _) = attempts
  have hrep : ∀ n, Exec.wrCount (List.replicate n (Exec.PAct.wr c)) = n := by
    intro n
    induction n with
    | zero => rfl
    | succ n ih =>
      simp [List.replicate_succ, Exec.wrCount, ih]
      omega
  simp [Exec.wrCount, wrCount_append, hrep]

theorem mem_sendProg_wr {s c : String} {n : Nat}
    (h : Exec.PAct.wr s ∈ Exec.sendProg c n) : s = c := by
  simp [Exec.sendProg, List.mem_append, List.mem_replicate] at h
  exact h.2

/-- The execution invariant: the trace respects the lock discipline,
the recorded lock owner matches the configuration, every write carries
the writing thread's own command text, and for every thread the writes
already on the wire plus the pending write actions add up to the
per-call attempt budget. -/
def Inv (cmds : List String) (attempts : Nat) (cf : Exec.Conf) : Prop :=
  Exec.legalFrom none cf.trace ∧
  Exec.lockAfter none cf.trace = cf.lock ∧
  (∀ t s, Exec.TrEv.wr t s ∈ cf.trace → cmds[t]? = some s) ∧
  (∀ t pr, cf.progs[t]? = some pr →
    (∀ s, Exec.PAct.wr s ∈ pr → cmds[t]? = some s) ∧
    Exec.countWr t cf.trace + Exec.wrCount pr = attempts)

theorem Inv_init (cmds : List String) (attempts : Nat) :
    Inv cmds attempts (Exec.initConf cmds attempts) := by
  refine ⟨trivial, rfl, by simp [Exec.initConf], ?_⟩
  intro t pr hpr
  simp only [Exec.initConf, List.getElem?_map] at hpr
  cases hc : cmds[t]? with
  | none => rw [hc] at hpr; simp at hpr
  | some c =>
    rw [hc] at hpr
    simp only [Option.map_some', Option.some.injEq] at hpr
    subst hpr
    refine ⟨fun s hs => ?_, ?_⟩
    · rw [mem_sendProg_wr hs]
    · simp [Exec.countWr, wrCount_sendProg]

theorem doAct_acq {cf : Exec.Conf} {i : Nat} {rest : List Exec.PAct}
    (hp : cf.progs[i]? = some (Exec.PAct.acq :: rest)) (hl : cf.lock = none) :
    Exec.doAct cf i =
      { lock := some i, progs := cf.progs.set i rest,
        trace := cf.trace ++ [Exec.TrEv.acq i] } := by
  unfold Exec.doAct
  rw [hp]
  simp [hl]

theorem doAct_wr {cf : Exec.Conf} {i : Nat} {c : String} {rest : List Exec.PAct}
    (hp : cf.progs[i]? = some (Exec.PAct.wr c :: rest)) (hl : cf.lock = some i) :
    Exec.doAct cf i =
      { lock := cf.lock, progs := cf.progs.set i rest,
        trace := cf.trace ++ [Exec.TrEv.wr i c] } := by
  unfold Exec.doAct
  rw [hp]
  simp [hl]

theorem doAct_rel {cf : Exec.Conf} {i : Nat} {rest : List Exec.PAct}
    (hp : cf.progs[i]? = some (Exec.PAct.rel :: rest)) (hl : cf.lock = some i) :
    Exec.doAct cf i =
      { lock := none, progs := cf.progs.set i rest,
        trace := cf.trace ++ [Exec.TrEv.rel i] } := by
  unfold Exec.doAct
  rw [hp]
  simp [hl]

theorem doAct_blocked_acq {cf : Exec.Conf} {i j : Nat} {rest : List Exec.PAct}
    (hp : cf.progs[i]? = some (Exec.PAct.acq :: rest)) (hl : cf.lock = some j) :
    Exec.doAct cf i = cf := by
  unfold Exec.doAct
  rw [hp]
  simp [hl]

theorem doAct_blocked_wr {cf : Exec.Conf} {i : Nat} {c : String}
    {rest : List Exec.PAct}
    (hp : cf.progs[i]? = some (Exec.PAct.wr c :: rest))
    (hl : ¬ cf.lock = some i) :
    Exec.doAct cf i = cf := by
  unfold Exec.doAct
  rw [hp]
  simp [hl]

theorem doAct_blocked_rel {cf : Exec.Conf} {i : Nat} {rest : List Exec.PAct}
    (hp : cf.progs[i]? = some (Exec.PAct.rel :: rest))
    (hl : ¬ cf.lock = some i) :
    Exec.doAct cf i = cf := by
  unfold Exec.doAct
  rw [hp]
  simp [hl]

theorem doAct_stuck_none {cf : Exec.Conf} {i : Nat}
    (hp : cf.progs[i]? = none) : Exec.doAct cf i = cf := by
  unfold Exec.doAct
  rw [hp]

theorem doAct_stuck_nil {cf : Exec.Conf} {i : Nat}
    (hp : cf.progs[i]? = some []) : Exec.doAct cf i = cf := by
  unfold Exec.doAct
  rw [hp]

theorem doAct_inv {cmds : List String} {attempts : Nat} {cf : Exec.Conf}
    (hinv : Inv cmds attempts cf) (i : Nat) :
    Inv cmds attempts (Exec.doAct cf i) := by
  obtain ⟨hleg, hlock, htr, hpr⟩ := hinv
  cases hp : cf.progs[i]? with
  | none => rw [doAct_stuck_none hp]; exact ⟨hleg, hlock, htr, hpr⟩
  | some pr =>
    have hilen : i < cf.progs.length := (List.getElem?_eq_some.mp hp).1
    cases pr with
    | nil => rw [doAct_stuck_nil hp]; exact ⟨hleg, hlock, htr, hpr⟩
    | cons a rest =>
      have hown := hpr i (a :: rest) hp
      have hprogs : ∀ (t : Nat) (pr2 : List Exec.PAct),
          (cf.progs.set i rest)[t]? = some pr2 →
          (t = i ∧ pr2 = rest) ∨ (t ≠ i ∧ cf.progs[t]? = some pr2) := by
        intro t pr2 hpr2
        by_cases hti : t = i
        · subst hti
          simp only [List.getElem?_set, hilen, if_pos rfl, if_true,
            Option.some.injEq] at hpr2
          exact Or.inl ⟨rfl, hpr2.symm⟩
        · rw [List.getElem?_set_ne (by omega)] at hpr2
          exact Or.inr ⟨hti, hpr2⟩
      cases a with
      | acq =>
        cases hl : cf.lock with
        | some j => rw [doAct_blocked_acq hp hl]; exact ⟨hleg, hlock, htr, hpr⟩
        | none =>
          rw [doAct_acq hp hl]
          refine ⟨?_, ?_, ?_, ?_⟩
          · rw [legalFrom_append]
            exact ⟨hleg, by simp [Exec.legalFrom, hlock, hl]⟩
          · rw [lockAfter_append, hlock, hl]; rfl
          · intro t s hts
            rcases List.mem_append.mp hts with hm | hm
            · exact htr t s hm
            · simp at hm
          · intro t pr2 hpr2
            rcases hprogs t pr2 hpr2 with ⟨rfl, rfl⟩ | ⟨_, hpr2⟩
            · refine ⟨fun s hs => hown.1 s (by simp [hs]), ?_⟩
              rw [countWr_append]
              have h2 := hown.2
              simp only [Exec.wrCount] at h2
              simpa [Exec.countWr] using h2
            · have h2 := hpr t pr2 hpr2
              refine ⟨h2.1, ?_⟩
              rw [countWr_append]
              simpa [Exec.countWr] using h2.2
      | wr c =>
        by_cases hl : cf.lock = some i
        · rw [doAct_wr hp hl]
          refine ⟨?_, ?_, ?_, ?_⟩
          · rw [legalFrom_append]
            exact ⟨hleg, by simp [Exec.legalFrom, hlock, hl]⟩
          · rw [lockAfter_append, hlock]
            simp [Exec.lockAfter, hl]
          · intro t s hts
            rcases List.mem_append.mp hts with hm | hm
            · exact htr t s hm
            · simp at hm
              obtain ⟨rfl, rfl⟩ := hm
              exact hown.1 _ (by simp)
          · intro t pr2 hpr2
            rcases hprogs t pr2 hpr2 with ⟨rfl, rfl⟩ | ⟨hti, hpr2⟩
            · refine ⟨fun s hs => hown.1 s (by simp [hs]), ?_⟩
              rw [countWr_append]
              have h2 := hown.2
              simp only [Exec.wrCount] at h2
              simp [Exec.countWr]
              omega
            · have h2 := hpr t pr2 hpr2
              refine ⟨h2.1, ?_⟩
              rw [countWr_append]
              have hz : Exec.countWr t [Exec.TrEv.wr i c] = 0 := by
                simp [Exec.countWr, Ne.symm hti]
              omega
        · rw [doAct_blocked_wr hp hl]
          exact ⟨hleg, hlock, htr, hpr⟩
      | rel =>
        by_cases hl : cf.lock = some i
        · rw [doAct_rel hp hl]
          refine ⟨?_, ?_, ?_, ?_⟩
          · rw [legalFrom_append]
            exact ⟨hleg, by simp [Exec.legalFrom, hlock, hl]⟩
          · rw [lockAfter_append, hlock]
            simp [Exec.lockAfter]
          · intro t s hts
            rcases List.mem_append.mp hts with hm | hm
            · exact htr t s hm
            · simp at hm
          · intro t pr2 hpr2
            rcases hprogs t pr2 hpr2 with ⟨rfl, rfl⟩ | ⟨_, hpr2⟩
            · refine ⟨fun s hs => hown.1 s (by simp [hs]), ?_⟩
              rw [countWr_append]
              have h2 := hown.2
              simp only [Exec.wrCount] at h2
              simpa [Exec.countWr] using h2
            · have h2 := hpr t pr2 hpr2
              refine ⟨h2.1, ?_⟩
              rw [countWr_append]
              simpa [Exec.countWr] using h2.2
        · rw [doAct_blocked_rel hp hl]
          exact ⟨hleg, hlock, htr, hpr⟩

theorem runConf_inv {cmds : List String} {attempts : Nat} :
    ∀ (sched : List Nat) (cf : Exec.Conf), Inv cmds attempts cf →
      Inv cmds attempts (Exec.runConf cf sched) := by
  intro sched
  induction sched with
  | nil => intro cf h; exact h
  | cons i s ih => intro cf h; exact ih _ (doAct_inv h i)

theorem runSenders_inv (cmds : List String) (attempts : Nat) (sched : List Nat) :
    Inv cmds attempts (Exec.runSenders cmds attempts sched) :=
  runConf_inv sched _ (Inv_init cmds attempts)

theorem legal_writes_between (t : Nat) :
    ∀ (ys : List Exec.TrEv) (u : Nat) (d : String) (zs : List Exec.TrEv),
      Exec.legalFrom (some t) (ys ++ Exec.TrEv.wr u d :: zs) →
      (∀ e ∈ ys, e.isRel = false) → u = t := by
  intro ys
  induction ys with
  | nil =>
    intro u d zs h _
    exact (Option.some.inj h.1).symm
  | cons e ys ih =>
    intro u d zs h hrel
    cases e with
    | acq v => exact absurd h.1 (by simp)
    | wr v s2 => exact ih u d zs h.2 (fun x hx => hrel x (by simp [hx]))
    | rel v => exact absurd (hrel (Exec.TrEv.rel v) (by simp)) (by simp [Exec.TrEv.isRel])

theorem openAfter_legal :
    ∀ (p : List Exec.TrEv) (h : Option Nat) (cur : List Nat),
      Exec.legalFrom h p →
      cur = (match h with | none => [] | some t => [t]) →
      Exec.openAfter cur p =
        (match Exec.lockAfter h p with | none => [] | some t => [t]) := by
  intro p
  induction p with
  | nil =>
    intro h cur _ hc
    subst hc
    cases h <;> rfl
  | cons e p ih =>
    intro h cur hleg hc
    cases e with
    | acq t =>
      obtain ⟨h1, h2⟩ := hleg
      subst h1; subst hc
      simpa [Exec.openAfter, Exec.lockAfter] using ih (some t) [t] h2 rfl
    | wr t c =>
      obtain ⟨h1, h2⟩ := hleg
      subst hc
      simpa [Exec.openAfter, Exec.lockAfter] using ih h _ h2 rfl
    | rel t =>
      obtain ⟨h1, h2⟩ := hleg
      subst h1; subst hc
      have he : ([t] : List Nat).erase t = [] := by simp
      simpa [Exec.openAfter, Exec.lockAfter, he] using ih none [] h2 rfl

theorem open_le_one {p : List Exec.TrEv} (h : Exec.legalFrom none p) :
    (Exec.openAfter [] p).length ≤ 1 := by
  rw [openAfter_legal p none [] h rfl]
  cases Exec.lockAfter none p <;> simp

/-- Claim C2: under the execution lock, every caller's `send_command`
writes its command once per attempt — when a thread's program is fully
consumed its wire writes equal its attempt budget — writes carry only
the calling thread's own command text, two writes with no transaction
end (release) between them come from the same thread with the same
text, and after every trace prefix at most one transaction is open. -/
theorem c2_single_flight (cmds : List String) (attempts : Nat) (sched : List Nat) :
    (∀ (p rest : List Exec.TrEv),
        (Exec.runSenders cmds attempts sched).trace = p ++ rest →
        (Exec.openAfter [] p).length ≤ 1) ∧
    (∀ (xs : List Exec.TrEv) (t : Nat) (c : String) (ys : List Exec.TrEv)
        (u : Nat) (d : String) (zs : List Exec.TrEv),
        (Exec.runSenders cmds attempts sched).trace =
          xs ++ Exec.TrEv.wr t c :: (ys ++ Exec.TrEv.wr u d :: zs) →
        (∀ e ∈ ys, e.isRel = false) → u = t ∧ d = c) ∧
    (∀ t s, Exec.TrEv.wr t s ∈ (Exec.runSenders cmds attempts sched).trace →
        cmds[t]? = some s) ∧
    (∀ t pr, (Exec.runSenders cmds attempts sched).progs[t]? = some pr →
        Exec.countWr t (Exec.runSenders cmds attempts sched).trace +
          Exec.wrCount pr = attempts) := by
  obtain ⟨hleg, hlock, htr, hpr⟩ := runSenders_inv cmds attempts sched
  refine ⟨?_, ?_, htr, fun t pr hp => (hpr t pr hp).2⟩
  · intro p rest hdec
    rw [hdec] at hleg
    exact open_le_one ((legalFrom_append none p rest).mp hleg).1
  · intro xs t c ys u d zs hdec hrel
    have hleg2 := hleg
    rw [hdec] at hleg2
    have h2 := ((legalFrom_append none xs _).mp hleg2).2
    have h3 := h2.2
    rw [h2.1] at h3
    have hut : u = t := legal_writes_between t ys u d zs h3 hrel
    subst hut
    have hc : cmds[u]? = some c := htr u c (by rw [hdec]; simp)
    have hd : cmds[u]? = some d := htr u d (by rw [hdec]; simp)
    refine ⟨rfl, ?_⟩
    rw [hc] at hd
    exact (Option.some.inj hd).symm

/-- Witness for claim C2: one thread sending `AT` with two attempts,
run to completion, has exactly two writes on the wire. -/
theorem c2_single_flight_witness :
    Exec.countWr 0 (Exec.runSenders ["AT"] 2 [0, 0, 0, 0]).trace +
      Exec.wrCount [] = 2 :=
  (c2_single_flight ["AT"] 2 [0, 0, 0, 0]).2.2.2 0 [] (by decide)

end Modem
